import Mathlib

/-!
Verification of the HeyU notifier client.

Part 1 embeds `heyu/util.py` (hub-specification parsing and certificate
configuration handling).  Python strings are modelled as `List Char`;
the regular expressions `HUB_RE` and `CERTCONF_RE` are deterministic
(each character class excludes the character that must follow the
greedy repetition), so they are embedded as greedy `takeWhile` parsers.

Part 2 models the Notifier Server and the Connection Application of
`heyu/notifier.py`.  That file is not part of the source tree here
(only its unit tests are), so those definitions are modelled from the
spec, with side effects on the connection manager, the wait primitive
and the owning server recorded as explicit effect traces.
-/

namespace HeyU

/-! ## Part 1: heyu/util.py -/

/-- Default port for the HeyU hub (`HEYU_PORT = 4859` in heyu/util.py). -/
def HEYU_PORT : Nat := 4859

/-- Characters admitted by the first hostname alternative of `HUB_RE`,
the character class excluding a colon, whitespace and brackets. -/
def isHostChar (c : Char) : Bool :=
  !(c = ':' || c = '[' || c = ']' ||
    c = ' ' || c = '\t' || c = '\n' || c = '\r' || c = '\x0b' || c = '\x0c')

/-- Characters admitted inside a bracketed IPv6 literal by `HUB_RE`,
the character class of hexadecimal digits and colons. -/
def isHexColonChar (c : Char) : Bool :=
  c.isDigit || ('a' ≤ c && c ≤ 'f') || ('A' ≤ c && c ≤ 'F') || c = ':'

/-- Python's `$` anchor without `re.MULTILINE`: it matches at the end
of the string and also just before a single newline that ends the
string. -/
def endAnchor (r : List Char) : Bool := r.isEmpty || r == ['\n']

/-- The optional port group of `HUB_RE`, `(?::(?P<port>\d+))?$`: a
colon followed by a greedy non-empty digit run and then the dollar
anchor, or no port at all with the anchor matching the remainder
directly.  Greedy matching is exact: a digit is neither the end of the
string nor a newline, so shrinking the run can never let the anchor
match. -/
def portPart : List Char → Option (Option (List Char))
  | ':' :: rest =>
    if (rest.takeWhile Char.isDigit).isEmpty then none
    else if endAnchor (rest.dropWhile Char.isDigit) then
      some (some (rest.takeWhile Char.isDigit))
    else none
  | r => if endAnchor r then some none else none

/-- Bracketed alternative of `HUB_RE`: `addr` is the greedy run of
hex-and-colon characters after the opening bracket and `rest` the
remainder, which must start with the closing bracket. -/
def hubBracket (addr rest : List Char) : Option (List Char × Option (List Char)) :=
  if addr.isEmpty then none
  else
    match rest with
    | ']' :: r2 =>
      match portPart r2 with
      | none => none
      | some p => some (('[' :: addr) ++ [']'], p)
    | _ => none

/-- Bare-hostname alternative of `HUB_RE`: `host` is the greedy run of
hostname characters and `rest` the remainder fed to the port group. -/
def hubHost (host rest : List Char) : Option (List Char × Option (List Char)) :=
  if host.isEmpty then none
  else
    match portPart rest with
    | none => none
    | some p => some (host, p)

/-- Matching of `HUB_RE` against a hub specification, returning the
hostname group (brackets included) and the optional port group.  The
alternation is decided by the first character: only the bracketed
alternative can start with an opening bracket, and greedy matching is
exact because each repeated class excludes the character required
next, so no backtracking can produce a different result. -/
def hubMatch : List Char → Option (List Char × Option (List Char))
  | [] => none
  | c :: t =>
    if c = '[' then
      hubBracket (t.takeWhile isHexColonChar) (t.dropWhile isHexColonChar)
    else
      hubHost ((c :: t).takeWhile isHostChar) ((c :: t).dropWhile isHostChar)

/-- `hostname[1:-1]` applied when the matched hostname starts with a
bracket (heyu/util.py line 61-63). -/
def stripBrackets (hostname : List Char) : List Char :=
  if hostname.head? = some '[' then (hostname.drop 1).dropLast else hostname

/-- Digit-string to integer conversion, `int(port)`. -/
def digitsToNat (ds : List Char) : Nat :=
  ds.foldl (fun acc c => acc * 10 + (c.toNat - 48)) 0

/-- The parsing phase of `parse_hub` (heyu/util.py lines 54-70): match
`HUB_RE`, unwrap a bracketed IPv6 hostname, and default the port to
`HEYU_PORT` when absent.  Returns `none` where the source raises
`HubException` for a non-matching specification. -/
def parseHubPre (s : List Char) : Option (List Char × Nat) :=
  match hubMatch s with
  | none => none
  | some (hostname, portOpt) =>
    some (stripBrackets hostname,
          match portOpt with
          | none => HEYU_PORT
          | some ds => digitsToNat ds)

/-- Errors raised by `parse_hub` as `HubException`. -/
inductive HubErr
  | badSpec
  | resolveFailed
  deriving DecidableEq, Repr

/-- `parse_hub` (heyu/util.py lines 42-79): parse the specification,
then resolve the hostname and port.  The `socket.getaddrinfo` call is
external input/output and is abstracted as the `resolver` argument;
resolution failure becomes the second `HubException`. -/
def parse_hub {Addr : Type} (resolver : List Char → Nat → Option Addr)
    (s : List Char) : Except HubErr Addr :=
  match parseHubPre s with
  | none => Except.error HubErr.badSpec
  | some (h, p) =>
    match resolver h p with
    | none => Except.error HubErr.resolveFailed
    | some a => Except.ok a

/-- Characters admitted by the `conf_path` group of `CERTCONF_RE`:
anything except the two brackets. -/
def isPathChar (c : Char) : Bool := !(c = '[' || c = ']')

/-- Word characters, the class matched inside the optional profile
suffix of `CERTCONF_RE` (Python 2 `re` default: ASCII letters, digits
and underscore). -/
def isWordChar (c : Char) : Bool := c.isAlphanum || c = '_'

/-- Profile-suffix part of `CERTCONF_RE`: `w` is the greedy run of
word characters after the opening bracket and `t2` the remainder,
which must be the closing bracket followed by the dollar anchor —
end of string, or one trailing newline. -/
def certBracket (w t2 : List Char) : Option (Option (List Char)) :=
  if w.isEmpty then none
  else if t2.head? = some ']' && endAnchor t2.tail then some (some w)
  else none

/-- The optional `[profile]` suffix of `CERTCONF_RE`: the remainder
after the path must be empty or a complete bracketed word. -/
def certSuffix : List Char → Option (Option (List Char))
  | [] => some none
  | c :: t =>
    if c = '[' then certBracket (t.takeWhile isWordChar) (t.dropWhile isWordChar)
    else none

/-- Matching of `CERTCONF_RE` against a certificate configuration
specification, returning the path group and the optional profile
group.  Greedy matching is exact: the path class excludes brackets and
the word class excludes the closing bracket, so no backtracking can
produce a different result. -/
def certconfMatch (s : List Char) : Option (List Char × Option (List Char)) :=
  if (s.takeWhile isPathChar).isEmpty then none
  else
    match certSuffix (s.dropWhile isPathChar) with
    | none => none
    | some pr => some (s.takeWhile isPathChar, pr)

/-- Errors raised by `cert_wrapper` as `CertException`. -/
inductive CertErr
  | badSpec
  | unreadable
  | noProfile
  | missingKeys
  deriving DecidableEq, Repr

/-- The value assembled by `cert_wrapper` on success: the TLS wrapper
partial application over the three configured files. -/
structure TLSWrapper where
  keyfile : List Char
  certfile : List Char
  cafile : List Char
  server_side : Bool
  deriving DecidableEq, Repr

/-- An INI-style configuration file: named sections of key/value
pairs, the shape `ConfigParser` exposes. -/
def ConfigFile : Type := List (List Char × List (List Char × List Char))

/-- Section lookup in a configuration file, `cp.items(profile)`. -/
def lookupSection (cf : ConfigFile) (name : List Char) :
    Option (List (List Char × List Char)) :=
  (cf.find? (fun sec => sec.fst = name)).map Prod.snd

/-- Key lookup in a section, membership in `dict(cp.items(profile))`. -/
def lookupKey (conf : List (List Char × List Char)) (key : List Char) :
    Option (List Char) :=
  (conf.find? (fun kv => kv.fst = key)).map Prod.snd

/-- The default certificate configuration path used when none is
supplied (heyu/util.py line 128). -/
def defaultCertPath : List Char := "~/.heyu.cert".toList

/-- The file-reading phase of `cert_wrapper` (heyu/util.py lines
144-174): tilde-expand the path, read the configuration file, load the
profile section, and require the `cafile`, `certfile` and `keyfile`
keys.  Tilde expansion and the filesystem are external and abstracted
as the `expand` and `fs` arguments; a `none` from `fs` is the empty
`cp.read` result. -/
def certLookup (expand : List Char → List Char) (fs : List Char → Option ConfigFile)
    (cert_conf profile : List Char) (server_side : Bool) :
    Except CertErr TLSWrapper :=
  match fs (expand cert_conf) with
  | none => Except.error CertErr.unreadable
  | some cf =>
    match lookupSection cf profile with
    | none => Except.error CertErr.noProfile
    | some conf =>
      match lookupKey conf "cafile".toList, lookupKey conf "certfile".toList,
            lookupKey conf "keyfile".toList with
      | some ca, some cert, some key => Except.ok ⟨key, cert, ca, server_side⟩
      | _, _, _ => Except.error CertErr.missingKeys

/-- `cert_wrapper` (heyu/util.py lines 97-174): no wrapper when
insecure; the default path and caller profile when no configuration is
supplied; otherwise parse the specification with `CERTCONF_RE`
(raising `CertException` on mismatch, before any file is consulted)
and let a `[profile]` suffix override the caller profile. -/
def cert_wrapper (expand : List Char → List Char) (fs : List Char → Option ConfigFile)
    (cert_conf : Option (List Char)) (profile : List Char)
    (server_side : Bool) (secure : Bool) :
    Except CertErr (Option TLSWrapper) :=
  if !secure then Except.ok none
  else
    match cert_conf with
    | none => (certLookup expand fs defaultCertPath profile server_side).map some
    | some s =>
      match certconfMatch s with
      | none => Except.error CertErr.badSpec
      | some (path, override) =>
        (certLookup expand fs path (override.getD profile) server_side).map some

/-- The language claimed for `CERTCONF_RE`: a non-empty bracket-free
path, optionally followed by a suffix of an opening bracket, one or
more word characters and a closing bracket. -/
def ValidCertConf (s : List Char) : Prop :=
  ∃ p sfx, s = p ++ sfx ∧ p ≠ [] ∧ (∀ c ∈ p, isPathChar c) ∧
    (sfx = [] ∨ ∃ w, w ≠ [] ∧ (∀ c ∈ w, isWordChar c) ∧ sfx = '[' :: (w ++ [']']))

/-- The language `CERTCONF_RE` actually accepts: the claimed language
extended by the dollar anchor's allowance of one trailing newline
after the profile suffix (a trailing newline with no suffix needs no
extension — a newline is an admissible path character and is simply
part of the path). -/
def ValidCertConfPy (s : List Char) : Prop :=
  ∃ p sfx, s = p ++ sfx ∧ p ≠ [] ∧ (∀ c ∈ p, isPathChar c) ∧
    (sfx = [] ∨ ∃ w t, w ≠ [] ∧ (∀ c ∈ w, isWordChar c) ∧
      (t = [] ∨ t = ['\n']) ∧ sfx = '[' :: (w ++ ']' :: t))

/-- Exact-end variant of `certBracket`, deciding the claimed language
rather than the regex: the closing bracket must end the string, with
no trailing-newline allowance. -/
def certBracketExact (w t2 : List Char) : Option (Option (List Char)) :=
  if w.isEmpty then none
  else if t2 = [']'] then some (some w) else none

/-- Exact-end variant of `certSuffix`, deciding the claimed
language. -/
def certSuffixExact : List Char → Option (Option (List Char))
  | [] => some none
  | c :: t =>
    if c = '[' then certBracketExact (t.takeWhile isWordChar) (t.dropWhile isWordChar)
    else none

/-- Decision procedure for `ValidCertConf`, the claim's
characterization of the certificate-configuration language: the
greedy parse with the profile suffix required to end the string
exactly. -/
def certconfExact (s : List Char) : Option (List Char × Option (List Char)) :=
  if (s.takeWhile isPathChar).isEmpty then none
  else
    match certSuffixExact (s.dropWhile isPathChar) with
    | none => none
    | some pr => some (s.takeWhile isPathChar, pr)

/-- A one-file filesystem for exercising `cert_wrapper` concretely:
the file at path `path` holds one profile `ab` defining the three
required keys. -/
def exampleCertFs : List Char → Option ConfigFile :=
  fun p =>
    if p = "path".toList then
      some [("ab".toList,
             [("cafile".toList, "ca".toList),
              ("certfile".toList, "crt".toList),
              ("keyfile".toList, "key".toList)])]
    else none

/-! ## Part 2: heyu/notifier.py (modelled from the spec) -/

/-- Modelled from the spec: the two-case envelope held in the Notifier
Server's ordered notification buffer of heyu/notifier.py (absent from
src/) — either a genuine message or the reserved sentinel meaning the
stream must end forcibly. -/
inductive Item (α : Type)
  | sentinel : Item α
  | msg : α → Item α
  deriving DecidableEq, Repr

/-- Modelled from the spec: the connection state of the Notifier
Server of heyu/notifier.py (absent from src/). -/
inductive SrvState
  | disconnected
  | connecting
  | connected
  deriving DecidableEq, Repr

/-- Modelled from the spec: the observable state of the Notifier
Server of heyu/notifier.py (absent from src/): the connection state
and the ordered notification buffer. -/
structure Server (α : Type) where
  state : SrvState
  buffer : List (Item α)
  deriving DecidableEq, Repr

/-- Modelled from the spec: the side effects a Notifier Server
operation of heyu/notifier.py (absent from src/) performs on its
collaborators — the Application, the connection manager, the
wait/signal primitive, and process exit. -/
inductive Eff
  | appDisconnect
  | managerStart
  | managerConnect
  | managerStop
  | managerShutdown
  | eventSet
  | eventClear
  | eventWait
  | processExit
  deriving DecidableEq, Repr

/-- Error raised by `start` on a non-initial state. -/
inductive StartErr
  | invalidState
  deriving DecidableEq, Repr

/-- Modelled from the spec: `NotifierServer.stop` of heyu/notifier.py
(absent from src/).  Idempotent when already disconnected; otherwise
ask the Application to disconnect when one is connected, stop the
connection manager, clear the state to disconnected, push the sentinel
only when the call is forced (signal-triggered), and signal the wait
primitive. -/
def NotifierServer.stop {α : Type} (forced : Bool) (s : Server α) :
    Server α × List Eff :=
  if s.state = SrvState.disconnected then (s, [])
  else
    (⟨SrvState.disconnected,
      if forced then s.buffer ++ [Item.sentinel] else s.buffer⟩,
     (if s.state = SrvState.connected then [Eff.appDisconnect] else []) ++
       [Eff.managerStop, Eff.eventSet])

/-- Modelled from the spec: `NotifierServer.shutdown` of
heyu/notifier.py (absent from src/).  Idempotent when already
disconnected; otherwise ask the connection manager for a graceful
shutdown (never its abrupt stop), always push the sentinel, clear the
state to disconnected and signal the wait primitive — the forcing
context argument is ignored. -/
def NotifierServer.shutdown {α : Type} (_forced : Bool) (s : Server α) :
    Server α × List Eff :=
  if s.state = SrvState.disconnected then (s, [])
  else
    (⟨SrvState.disconnected, s.buffer ++ [Item.sentinel]⟩,
     [Eff.managerShutdown, Eff.eventSet])

/-- Modelled from the spec: `NotifierServer.start` of heyu/notifier.py
(absent from src/).  On any state other than disconnected it raises an
invalid-state error, leaving the state unchanged and making no
connection-manager calls; otherwise it starts the manager, issues the
async connect and transitions to connecting. -/
def NotifierServer.start {α : Type} (s : Server α) :
    Option StartErr × Server α × List Eff :=
  if s.state = SrvState.disconnected then
    (none, ⟨SrvState.connecting, s.buffer⟩, [Eff.managerStart, Eff.managerConnect])
  else (some StartErr.invalidState, s, [])

/-- Modelled from the spec: the outcome of one pass of the Notifier
Server's fetch-next loop of heyu/notifier.py (absent from src/). -/
inductive NextOutcome (α : Type)
  | item : α → Server α → NextOutcome α
  | exitProc : NextOutcome α
  | endOfStream : NextOutcome α
  | blocked : NextOutcome α
  deriving DecidableEq, Repr

/-- Modelled from the spec: one pass of the fetch-next operation of
the Notifier Server of heyu/notifier.py (absent from src/).  A
non-empty buffer yields its front item, except that the sentinel
invokes the process-exit collaborator; an empty buffer first resets
the wait primitive, then ends the stream when disconnected, and
otherwise waits on the primitive before retrying. -/
def NotifierServer.nextStep {α : Type} (s : Server α) : NextOutcome α × List Eff :=
  match s.buffer with
  | Item.sentinel :: _ => (NextOutcome.exitProc, [Eff.processExit])
  | Item.msg m :: rest => (NextOutcome.item m ⟨s.state, rest⟩, [])
  | [] =>
    if s.state = SrvState.disconnected then (NextOutcome.endOfStream, [Eff.eventClear])
    else (NextOutcome.blocked, [Eff.eventClear, Eff.eventWait])

/-- Modelled from the spec: `NotifierServer.notify` of
heyu/notifier.py (absent from src/): append the message to the buffer
and signal the wait primitive. -/
def NotifierServer.notify {α : Type} (m : α) (s : Server α) : Server α × List Eff :=
  (⟨s.state, s.buffer ++ [Item.msg m]⟩, [Eff.eventSet])

/-- Modelled from the spec: a decoded protocol message as seen by the
Connection Application of heyu/notifier.py (absent from src/): its
kind tag and the remote-supplied reason carried by error messages. -/
structure DecodedMsg where
  msg_type : List Char
  reason : List Char
  deriving DecidableEq, Repr

/-- Modelled from the spec: the category tags of locally synthesized
status messages of heyu/notifier.py (absent from src/). -/
inductive Category
  | error
  | connected
  | disconnected
  deriving DecidableEq, Repr

/-- Modelled from the spec: the calls a Connection Application
dispatch of heyu/notifier.py (absent from src/) makes — a local status
notification (summary, body, category), a disconnect of this
Application, an invocation of the closed handler with an optional
failure reason, a stop of the owning server with its forcing flag, and
a direct forward of a remote message to the server. -/
inductive AppEff
  | localNotify : List Char → List Char → Category → AppEff
  | disconnectCall : AppEff
  | closedCall : Option (List Char) → AppEff
  | serverStop : Bool → AppEff
  | serverNotify : DecodedMsg → AppEff
  deriving DecidableEq, Repr

/-- Summary of the status message synthesized on a decode failure. -/
def parseFailSummary : List Char := "Failed To Parse Server Message".toList

/-- Body of the status message synthesized on a decode failure; the
decode error text is appended. -/
def parseFailBody (e : List Char) : List Char :=
  "Unable to parse a message from the server: ".toList ++ e

/-- Summary of the status message synthesized on a remote error. -/
def commErrorSummary : List Char := "Communication Error".toList

/-- Body of the status message synthesized on a remote error; the
remote-supplied reason is appended. -/
def commErrorBody (r : List Char) : List Char :=
  "An error occurred communicating with the HeyU hub: ".toList ++ r

/-- Summary of the status message synthesized on subscription. -/
def subscribedSummary : List Char := "Connection Established".toList

/-- Body of the status message synthesized on subscription. -/
def subscribedBody : List Char :=
  "The connection to the HeyU hub has been established.".toList

/-- Summary of the status message synthesized on an unknown kind. -/
def unknownSummary : List Char := "Unknown Server Message".toList

/-- Body of the status message synthesized on an unknown kind. -/
def unknownBody (k : List Char) : List Char :=
  "An unrecognized server message of type \"".toList ++ k ++
    "\" was received.".toList

/-- Summary of the status message synthesized when the connection
closes. -/
def closedSummary : List Char := "Connection Closed".toList

/-- Body of the status message synthesized when the connection
closes. -/
def closedBody : List Char :=
  "The connection to the HeyU hub has been closed.".toList

/-- Modelled from the spec: `NotifierApplication.recv_frame` of
heyu/notifier.py (absent from src/).  The frame decode is performed by
the external codec, so the function takes the decode outcome: a decode
failure synthesizes a parse-failure status, disconnects and stops the
server non-forced; otherwise dispatch is keyed on the message kind
exactly as in the spec's table. -/
def NotifierApplication.recv_frame (decoded : Except (List Char) DecodedMsg) :
    List AppEff :=
  match decoded with
  | Except.error e =>
    [AppEff.localNotify parseFailSummary (parseFailBody e) Category.error,
     AppEff.disconnectCall, AppEff.serverStop false]
  | Except.ok msg =>
    if msg.msg_type = "error".toList then
      [AppEff.localNotify commErrorSummary (commErrorBody msg.reason) Category.error,
       AppEff.disconnectCall, AppEff.serverStop false]
    else if msg.msg_type = "goodbye".toList then
      [AppEff.disconnectCall, AppEff.closedCall none]
    else if msg.msg_type = "subscribed".toList then
      [AppEff.localNotify subscribedSummary subscribedBody Category.connected]
    else if msg.msg_type = "notify".toList then
      [AppEff.serverNotify msg]
    else
      [AppEff.localNotify unknownSummary (unknownBody msg.msg_type) Category.error]

/-- Modelled from the spec: `NotifierApplication.closed` of
heyu/notifier.py (absent from src/): whatever the closure reason, it
synthesizes one Connection Closed status message with the disconnected
category and stops the owning server without forcing. -/
def NotifierApplication.closed (_reason : Option (List Char)) : List AppEff :=
  [AppEff.localNotify closedSummary closedBody Category.disconnected,
   AppEff.serverStop false]

/-- Transport-level actions performed by `disconnect`. -/
inductive TransEff
  | sendGoodbye
  | closeTransport
  deriving DecidableEq, Repr

/-- Modelled from the spec: `NotifierApplication.disconnect` of
heyu/notifier.py (absent from src/): best-effort send of a goodbye
frame inside a try/except that swallows every send failure, then close
the transport.  The send outcome is external and taken as an argument;
the result is the action trace, and an error result would model a
raise, which never happens. -/
def NotifierApplication.disconnect {ε : Type} (sendResult : Except ε Unit) :
    Except ε (List TransEff) :=
  match sendResult with
  | Except.ok _ => Except.ok [TransEff.sendGoodbye, TransEff.closeTransport]
  | Except.error _ => Except.ok [TransEff.sendGoodbye, TransEff.closeTransport]

/-- Count of local status notifications in an Application action
trace. -/
def countLocalNotify (effs : List AppEff) : Nat :=
  effs.countP (fun e =>
    match e with
    | AppEff.localNotify _ _ _ => true
    | _ => false)

/-! ## Supporting lemmas on greedy character runs -/

/-- A greedy `takeWhile` over a list that begins with an all-accepted
run and continues with a rejected (or absent) head returns exactly the
run. -/
theorem takeWhile_app_eq {α : Type} {p : α → Bool} (l' : List α)
    (hl' : ∀ c, l'.head? = some c → p c = false) :
    ∀ l : List α, (∀ c ∈ l, p c) → (l ++ l').takeWhile p = l := by
  intro l
  induction l with
  | nil =>
    intro _
    cases l' with
    | nil => rfl
    | cons c t => simp [List.takeWhile_cons, hl' c rfl]
  | cons a t ih =>
    intro hl
    have ha : p a = true := hl a (List.mem_cons_self a t)
    simp only [List.cons_append, List.takeWhile_cons, ha, if_true]
    rw [ih (fun c hc => hl c (List.mem_cons_of_mem a hc))]

/-- The `dropWhile` companion of `takeWhile_app_eq`. -/
theorem dropWhile_app_eq {α : Type} {p : α → Bool} (l' : List α)
    (hl' : ∀ c, l'.head? = some c → p c = false) :
    ∀ l : List α, (∀ c ∈ l, p c) → (l ++ l').dropWhile p = l' := by
  intro l
  induction l with
  | nil =>
    intro _
    cases l' with
    | nil => rfl
    | cons c t => simp [List.dropWhile_cons, hl' c rfl]
  | cons a t ih =>
    intro hl
    have ha : p a = true := hl a (List.mem_cons_self a t)
    simp only [List.cons_append, List.dropWhile_cons, ha, if_true]
    exact ih (fun c hc => hl c (List.mem_cons_of_mem a hc))

/-! ## Theorems for hub-specification parsing -/

/-- The dollar anchor accepts the empty remainder, so an absent port
group parses as no port. -/
theorem portPart_nil : portPart [] = some none := rfl

/-- The port group accepts a colon followed by a non-empty digit run
reaching the end of the string. -/
theorem portPart_digits (ds : List Char) (hds : ds ≠ [])
    (hdsd : ∀ c ∈ ds, c.isDigit) : portPart (':' :: ds) = some (some ds) := by
  have htw : ds.takeWhile Char.isDigit = ds := by
    have h := takeWhile_app_eq [] (fun x hx => by simp at hx) ds hdsd
    rwa [List.append_nil] at h
  have hdw : ds.dropWhile Char.isDigit = [] := by
    have h := dropWhile_app_eq [] (fun x hx => by simp at hx) ds hdsd
    rwa [List.append_nil] at h
  have hne : ds.isEmpty = false := by
    cases ds with
    | nil => exact absurd rfl hds
    | cons x y => rfl
  have hshape : portPart (':' :: ds) =
      (if (ds.takeWhile Char.isDigit).isEmpty then none
       else if endAnchor (ds.dropWhile Char.isDigit) then
         some (some (ds.takeWhile Char.isDigit))
       else none) := rfl
  rw [hshape, htw, hdw, hne]
  rfl

/-- C8: for every well-formed hub specification — a bare hostname of
hostname characters, a bracketed IPv6 literal of hexadecimal and colon
characters, each optionally followed by a colon and a digit port —
the parsing phase of `parse_hub` yields the expected hostname and
port: brackets are stripped from an IPv6 literal, an explicit port is
converted from its digits, and an omitted port defaults to
`HEYU_PORT` (4859). -/
theorem parse_hub_valid_spec (h ds a : List Char)
    (hh : h ≠ []) (hhc : ∀ c ∈ h, isHostChar c)
    (hds : ds ≠ []) (hdsd : ∀ c ∈ ds, c.isDigit)
    (ha : a ≠ []) (hac : ∀ c ∈ a, isHexColonChar c) :
    parseHubPre h = some (h, HEYU_PORT) ∧
    parseHubPre (h ++ ':' :: ds) = some (h, digitsToNat ds) ∧
    parseHubPre ('[' :: a ++ [']']) = some (a, HEYU_PORT) ∧
    parseHubPre ('[' :: a ++ (']' :: ':' :: ds)) = some (a, digitsToNat ds) := by
  obtain ⟨c, t, rfl⟩ : ∃ c t, h = c :: t := by
    cases h with
    | nil => exact absurd rfl hh
    | cons c t => exact ⟨c, t, rfl⟩
  have hch : isHostChar c = true := hhc c (List.mem_cons_self c t)
  have hcb : ¬(c = '[') := by
    intro hc
    subst hc
    simp [isHostChar] at hch
  have hhe : (c :: t).isEmpty = false := rfl
  have hae : a.isEmpty = false := by
    cases a with
    | nil => exact absurd rfl ha
    | cons x y => rfl
  refine ⟨?_, ?_, ?_, ?_⟩
  · have htw : ((c :: t) ++ []).takeWhile isHostChar = c :: t :=
      takeWhile_app_eq [] (fun x hx => by simp at hx) (c :: t) hhc
    have hdw : ((c :: t) ++ []).dropWhile isHostChar = [] :=
      dropWhile_app_eq [] (fun x hx => by simp at hx) (c :: t) hhc
    rw [List.append_nil] at htw hdw
    simp only [parseHubPre, hubMatch, if_neg hcb, htw, hdw, hubHost, hhe,
      Bool.false_eq_true, if_false, portPart_nil]
    simp [stripBrackets, Option.some.injEq, List.head?_cons, hcb]
  · have hcolon : ∀ x, (':' :: ds).head? = some x → isHostChar x = false := by
      intro x hx
      simp only [List.head?_cons, Option.some.injEq] at hx
      subst hx
      rfl
    have htw := takeWhile_app_eq (':' :: ds) hcolon (c :: t) hhc
    have hdw := dropWhile_app_eq (':' :: ds) hcolon (c :: t) hhc
    simp only [parseHubPre, hubMatch, List.cons_append] at htw hdw ⊢
    rw [if_neg hcb, htw, hdw]
    simp only [hubHost, hhe, Bool.false_eq_true, if_false,
      portPart_digits ds hds hdsd]
    simp [stripBrackets, hcb]
  · have hbr : ∀ x, ([']'] : List Char).head? = some x → isHexColonChar x = false := by
      intro x hx
      simp only [List.head?_cons, Option.some.injEq] at hx
      subst hx
      rfl
    have htw := takeWhile_app_eq [']'] hbr a hac
    have hdw := dropWhile_app_eq [']'] hbr a hac
    have hm : hubMatch ('[' :: (a ++ [']'])) = some (('[' :: a) ++ [']'], none) := by
      have h1 : hubMatch ('[' :: (a ++ [']'])) =
          hubBracket ((a ++ [']']).takeWhile isHexColonChar)
            ((a ++ [']']).dropWhile isHexColonChar) := by
        simp [hubMatch]
      rw [h1, htw, hdw]
      unfold hubBracket
      rw [hae]
      rfl
    simp only [List.cons_append]
    unfold parseHubPre
    rw [show ('[' :: a) ++ [']'] = '[' :: (a ++ [']']) from rfl] at hm
    rw [hm]
    simp [stripBrackets, List.dropLast_concat]
  · have hbr : ∀ x, (']' :: ':' :: ds).head? = some x → isHexColonChar x = false := by
      intro x hx
      simp only [List.head?_cons, Option.some.injEq] at hx
      subst hx
      rfl
    have htw := takeWhile_app_eq (']' :: ':' :: ds) hbr a hac
    have hdw := dropWhile_app_eq (']' :: ':' :: ds) hbr a hac
    have hm : hubMatch ('[' :: (a ++ (']' :: ':' :: ds))) =
        some ('[' :: (a ++ [']']), some ds) := by
      have h1 : hubMatch ('[' :: (a ++ (']' :: ':' :: ds))) =
          hubBracket ((a ++ (']' :: ':' :: ds)).takeWhile isHexColonChar)
            ((a ++ (']' :: ':' :: ds)).dropWhile isHexColonChar) := by
        simp [hubMatch]
      rw [h1, htw, hdw]
      unfold hubBracket
      rw [hae]
      simp only [Bool.false_eq_true, if_false]
      rw [portPart_digits ds hds hdsd]
      rfl
    simp only [List.cons_append]
    unfold parseHubPre
    rw [hm]
    simp [stripBrackets, List.dropLast_concat]

/-- Witness for C8 at concrete inputs: hostname host, port 80, IPv6
literal fe80:1. -/
theorem parse_hub_valid_spec_witness :
    parseHubPre "host".toList = some ("host".toList, HEYU_PORT) ∧
    parseHubPre ("host".toList ++ ':' :: "80".toList) =
      some ("host".toList, digitsToNat "80".toList) ∧
    parseHubPre ('[' :: "fe80:1".toList ++ [']']) =
      some ("fe80:1".toList, HEYU_PORT) ∧
    parseHubPre ('[' :: "fe80:1".toList ++ (']' :: ':' :: "80".toList)) =
      some ("fe80:1".toList, digitsToNat "80".toList) :=
  parse_hub_valid_spec "host".toList "80".toList "fe80:1".toList
    (by decide) (by decide) (by decide) (by decide) (by decide) (by decide)

/-! ## Theorems for certificate-configuration parsing -/

/-- The dollar anchor accepts exactly the empty remainder and the
single trailing newline. -/
theorem endAnchor_iff (r : List Char) :
    endAnchor r = true ↔ (r = [] ∨ r = ['\n']) := by
  unfold endAnchor
  cases r with
  | nil => simp
  | cons c t => simp

/-- Soundness of the claim-language decision procedure: every
specification `certconfExact` accepts is a non-empty bracket-free path
optionally followed by a bracketed word suffix ending the string. -/
theorem certconfExact_some_valid {s : List Char}
    {pr : List Char × Option (List Char)} (h : certconfExact s = some pr) :
    ValidCertConf s := by
  unfold certconfExact at h
  by_cases he : (s.takeWhile isPathChar).isEmpty = true
  · rw [if_pos he] at h
    simp at h
  · rw [if_neg he] at h
    have hsplit : s.takeWhile isPathChar ++ s.dropWhile isPathChar = s :=
      List.takeWhile_append_dropWhile _ _
    have hpne : s.takeWhile isPathChar ≠ [] := by
      intro h0
      rw [h0] at he
      exact he rfl
    have hpc : ∀ c ∈ s.takeWhile isPathChar, isPathChar c := fun c hc =>
      List.mem_takeWhile_imp hc
    cases hr : s.dropWhile isPathChar with
    | nil =>
      refine ⟨s.takeWhile isPathChar, [], ?_, hpne, hpc, Or.inl rfl⟩
      rw [hr] at hsplit
      exact hsplit.symm
    | cons c t =>
      rw [hr] at h
      by_cases hcb : c = '['
      · subst hcb
        rw [show certSuffixExact ('[' :: t) =
            certBracketExact (t.takeWhile isWordChar) (t.dropWhile isWordChar)
            from rfl] at h
        unfold certBracketExact at h
        by_cases hwe : (t.takeWhile isWordChar).isEmpty = true
        · rw [if_pos hwe] at h
          simp at h
        · rw [if_neg hwe] at h
          by_cases ht2 : t.dropWhile isWordChar = [']']
          · have htsplit : t.takeWhile isWordChar ++ t.dropWhile isWordChar = t :=
              List.takeWhile_append_dropWhile _ _
            rw [ht2] at htsplit
            refine ⟨s.takeWhile isPathChar,
              '[' :: (t.takeWhile isWordChar ++ [']']), ?_, hpne, hpc,
              Or.inr ⟨t.takeWhile isWordChar, ?_, ?_, rfl⟩⟩
            · rw [htsplit, ← hr, hsplit]
            · intro h0
              rw [h0] at hwe
              exact hwe rfl
            · exact fun c hc => List.mem_takeWhile_imp hc
          · rw [if_neg ht2] at h
            simp at h
      · simp only [certSuffixExact] at h
        rw [if_neg hcb] at h
        simp at h

/-- Completeness of the claim-language decision procedure: every
non-empty bracket-free path, optionally followed by a bracketed word
suffix ending the string, is accepted by `certconfExact`. -/
theorem valid_certconfExact {s : List Char} (h : ValidCertConf s) :
    ∃ pr, certconfExact s = some pr := by
  obtain ⟨p, sfx, rfl, hpne, hpc, hsfx⟩ := h
  have hpe : p.isEmpty = false := by
    cases p with
    | nil => exact absurd rfl hpne
    | cons x y => rfl
  cases hsfx with
  | inl h0 =>
    subst h0
    have htw := takeWhile_app_eq [] (fun x hx => by simp at hx) p hpc
    have hdw := dropWhile_app_eq [] (fun x hx => by simp at hx) p hpc
    refine ⟨(p, none), ?_⟩
    unfold certconfExact
    rw [htw, hdw, hpe]
    rfl
  | inr h0 =>
    obtain ⟨w, hwne, hwc, h1⟩ := h0
    subst h1
    have hwe : w.isEmpty = false := by
      cases w with
      | nil => exact absurd rfl hwne
      | cons x y => rfl
    have hbr : ∀ x, ('[' :: (w ++ [']'])).head? = some x → isPathChar x = false := by
      intro x hx
      simp only [List.head?_cons, Option.some.injEq] at hx
      subst hx
      rfl
    have htw := takeWhile_app_eq ('[' :: (w ++ [']'])) hbr p hpc
    have hdw := dropWhile_app_eq ('[' :: (w ++ [']'])) hbr p hpc
    have hwbr : ∀ x, ([']'] : List Char).head? = some x → isWordChar x = false := by
      intro x hx
      simp only [List.head?_cons, Option.some.injEq] at hx
      subst hx
      rfl
    have hwt := takeWhile_app_eq [']'] hwbr w hwc
    have hwd := dropWhile_app_eq [']'] hwbr w hwc
    refine ⟨(p, some w), ?_⟩
    unfold certconfExact
    rw [htw, hdw, hpe]
    simp only [Bool.false_eq_true, if_false]
    rw [show certSuffixExact ('[' :: (w ++ [']'])) =
        certBracketExact ((w ++ [']']).takeWhile isWordChar)
          ((w ++ [']']).dropWhile isWordChar) from rfl]
    rw [hwt, hwd]
    unfold certBracketExact
    rw [hwe]
    rfl

/-- Soundness of `CERTCONF_RE`: every specification it matches is a
non-empty bracket-free path optionally followed by a bracketed word
suffix and at most one trailing newline. -/
theorem certconfMatch_some_validPy {s : List Char}
    {pr : List Char × Option (List Char)} (h : certconfMatch s = some pr) :
    ValidCertConfPy s := by
  unfold certconfMatch at h
  by_cases he : (s.takeWhile isPathChar).isEmpty = true
  · rw [if_pos he] at h
    simp at h
  · rw [if_neg he] at h
    have hsplit : s.takeWhile isPathChar ++ s.dropWhile isPathChar = s :=
      List.takeWhile_append_dropWhile _ _
    have hpne : s.takeWhile isPathChar ≠ [] := by
      intro h0
      rw [h0] at he
      exact he rfl
    have hpc : ∀ c ∈ s.takeWhile isPathChar, isPathChar c := fun c hc =>
      List.mem_takeWhile_imp hc
    cases hr : s.dropWhile isPathChar with
    | nil =>
      refine ⟨s.takeWhile isPathChar, [], ?_, hpne, hpc, Or.inl rfl⟩
      rw [hr] at hsplit
      exact hsplit.symm
    | cons c t =>
      rw [hr] at h
      by_cases hcb : c = '['
      · subst hcb
        rw [show certSuffix ('[' :: t) =
            certBracket (t.takeWhile isWordChar) (t.dropWhile isWordChar)
            from rfl] at h
        unfold certBracket at h
        by_cases hwe : (t.takeWhile isWordChar).isEmpty = true
        · rw [if_pos hwe] at h
          simp at h
        · rw [if_neg hwe] at h
          by_cases hok : (decide ((t.dropWhile isWordChar).head? = some ']') &&
              endAnchor (t.dropWhile isWordChar).tail) = true
          · simp only [Bool.and_eq_true, decide_eq_true_eq] at hok
            obtain ⟨hh1, hh2⟩ := hok
            cases ht2 : t.dropWhile isWordChar with
            | nil =>
              rw [ht2] at hh1
              simp at hh1
            | cons d r2 =>
              rw [ht2] at hh1 hh2
              simp only [List.head?_cons, Option.some.injEq] at hh1
              subst hh1
              simp only [List.tail_cons] at hh2
              have hr2 : r2 = [] ∨ r2 = ['\n'] := (endAnchor_iff r2).mp hh2
              have htsplit : t.takeWhile isWordChar ++ t.dropWhile isWordChar = t :=
                List.takeWhile_append_dropWhile _ _
              rw [ht2] at htsplit
              refine ⟨s.takeWhile isPathChar,
                '[' :: (t.takeWhile isWordChar ++ ']' :: r2), ?_, hpne, hpc,
                Or.inr ⟨t.takeWhile isWordChar, r2, ?_, ?_, hr2, rfl⟩⟩
              · rw [htsplit, ← hr, hsplit]
              · intro h0
                rw [h0] at hwe
                exact hwe rfl
              · exact fun c hc => List.mem_takeWhile_imp hc
          · rw [if_neg hok] at h
            simp at h
      · simp only [certSuffix] at h
        rw [if_neg hcb] at h
        simp at h

/-- Completeness of `CERTCONF_RE`: every non-empty bracket-free path,
optionally followed by a bracketed word suffix and at most one
trailing newline, is matched. -/
theorem validPy_certconfMatch {s : List Char} (h : ValidCertConfPy s) :
    ∃ pr, certconfMatch s = some pr := by
  obtain ⟨p, sfx, rfl, hpne, hpc, hsfx⟩ := h
  have hpe : p.isEmpty = false := by
    cases p with
    | nil => exact absurd rfl hpne
    | cons x y => rfl
  cases hsfx with
  | inl h0 =>
    subst h0
    have htw := takeWhile_app_eq [] (fun x hx => by simp at hx) p hpc
    have hdw := dropWhile_app_eq [] (fun x hx => by simp at hx) p hpc
    refine ⟨(p, none), ?_⟩
    unfold certconfMatch
    rw [htw, hdw, hpe]
    rfl
  | inr h0 =>
    obtain ⟨w, t, hwne, hwc, ht, h1⟩ := h0
    subst h1
    have hwe : w.isEmpty = false := by
      cases w with
      | nil => exact absurd rfl hwne
      | cons x y => rfl
    have hbr : ∀ x, ('[' :: (w ++ ']' :: t)).head? = some x →
        isPathChar x = false := by
      intro x hx
      simp only [List.head?_cons, Option.some.injEq] at hx
      subst hx
      rfl
    have htw := takeWhile_app_eq ('[' :: (w ++ ']' :: t)) hbr p hpc
    have hdw := dropWhile_app_eq ('[' :: (w ++ ']' :: t)) hbr p hpc
    have hwbr : ∀ x, (']' :: t).head? = some x → isWordChar x = false := by
      intro x hx
      simp only [List.head?_cons, Option.some.injEq] at hx
      subst hx
      rfl
    have hwt := takeWhile_app_eq (']' :: t) hwbr w hwc
    have hwd := dropWhile_app_eq (']' :: t) hwbr w hwc
    refine ⟨(p, some w), ?_⟩
    unfold certconfMatch
    rw [htw, hdw, hpe]
    simp only [Bool.false_eq_true, if_false]
    rw [show certSuffix ('[' :: (w ++ ']' :: t)) =
        certBracket ((w ++ ']' :: t).takeWhile isWordChar)
          ((w ++ ']' :: t).dropWhile isWordChar) from rfl]
    rw [hwt, hwd]
    unfold certBracket
    rw [hwe]
    simp only [Bool.false_eq_true, if_false]
    have hcond : (decide ((']' :: t).head? = some ']') &&
        endAnchor (']' :: t).tail) = true := by
      cases ht with
      | inl h2 =>
        subst h2
        decide
      | inr h2 =>
        subst h2
        decide
    rw [hcond]
    rfl

/-- The file-reading phase can fail with an unreadable file, a missing
profile or missing keys, but never reports the parse error. -/
theorem certLookup_ne_badSpec (expand : List Char → List Char)
    (fs : List Char → Option ConfigFile) (cc profile : List Char) (sside : Bool) :
    certLookup expand fs cc profile sside ≠ Except.error CertErr.badSpec := by
  unfold certLookup
  split
  · simp
  · split
    · simp
    · split
      · simp
      · simp

/-- C10 counterexample: the string path[ab] followed by one newline is
not a bracket-free path optionally followed by a bracketed word
suffix, yet `cert_wrapper` with security enabled does not report the
parse `CertException` for it — `CERTCONF_RE`'s dollar anchor matches
before the trailing newline, so the parse succeeds and, on a
filesystem where the file and profile exist, the call reads the file
and returns a wrapper with no error at all. -/
theorem cert_wrapper_c10_counterexample :
    ¬ ValidCertConf "path[ab]\n".toList ∧
    cert_wrapper id exampleCertFs (some "path[ab]\n".toList) "other".toList
        false true =
      Except.ok (some ⟨"key".toList, "crt".toList, "ca".toList, false⟩) := by
  constructor
  · intro hv
    obtain ⟨pr, hm⟩ := valid_certconfExact hv
    rw [show certconfExact "path[ab]\n".toList = none from rfl] at hm
    exact Option.noConfusion hm
  · rfl

/-- C10 (amended): with security enabled, `cert_wrapper` on a
certificate configuration string reports the parse `CertException` —
independently of every filesystem, so before any file is read —
exactly when the string is not a bracket-free path optionally followed
by a bracketed word-character profile suffix that may carry one
trailing newline; a missing configuration string bypasses the parse
entirely and proceeds with the default path and the caller-supplied
profile. -/
theorem cert_wrapper_c10_amended (s profile : List Char)
    (expand : List Char → List Char) (fs : List Char → Option ConfigFile)
    (sside : Bool) :
    (cert_wrapper expand fs (some s) profile sside true =
        Except.error CertErr.badSpec ↔ ¬ ValidCertConfPy s) ∧
    cert_wrapper expand fs none profile sside true =
      (certLookup expand fs defaultCertPath profile sside).map some := by
  constructor
  · constructor
    · intro heq hvalid
      obtain ⟨pr, hm⟩ := validPy_certconfMatch hvalid
      rw [show cert_wrapper expand fs (some s) profile sside true =
          (match certconfMatch s with
           | none => Except.error CertErr.badSpec
           | some (path, override) =>
             (certLookup expand fs path (override.getD profile) sside).map some)
          from rfl, hm] at heq
      obtain ⟨path, override⟩ := pr
      have heq2 : Except.map some
          (certLookup expand fs path (override.getD profile) sside) =
          Except.error CertErr.badSpec := heq
      cases hcl : certLookup expand fs path (override.getD profile) sside with
      | ok w =>
        rw [hcl] at heq2
        simp [Except.map] at heq2
      | error e =>
        rw [hcl] at heq2
        simp [Except.map] at heq2
        exact certLookup_ne_badSpec expand fs path (override.getD profile) sside
          (heq2 ▸ hcl)
    · intro hnv
      have hm : certconfMatch s = none := by
        cases hm2 : certconfMatch s with
        | none => rfl
        | some pr => exact absurd (certconfMatch_some_validPy hm2) hnv
      rw [show cert_wrapper expand fs (some s) profile sside true =
          (match certconfMatch s with
           | none => Except.error CertErr.badSpec
           | some (path, override) =>
             (certLookup expand fs path (override.getD profile) sside).map some)
          from rfl, hm]
  · rfl

/-! ## Theorems for the Notifier Server and Connection Application -/

/-- C1: on a Connected server, `stop` appends the sentinel to the
buffer exactly when it is forced (signal-triggered) and otherwise
leaves the buffer unchanged; in both cases it disconnects the
Application, calls the connection manager's stop exactly once, sets
the state to Disconnected, and signals the wait primitive exactly
once. -/
theorem stop_connected_spec {α : Type} (buf : List (Item α)) (forced : Bool) :
    NotifierServer.stop forced ⟨SrvState.connected, buf⟩ =
      (⟨SrvState.disconnected, if forced then buf ++ [Item.sentinel] else buf⟩,
       [Eff.appDisconnect, Eff.managerStop, Eff.eventSet]) ∧
    (NotifierServer.stop forced (⟨SrvState.connected, buf⟩ : Server α)).2.count
        Eff.appDisconnect = 1 ∧
    (NotifierServer.stop forced (⟨SrvState.connected, buf⟩ : Server α)).2.count
        Eff.managerStop = 1 ∧
    (NotifierServer.stop forced (⟨SrvState.connected, buf⟩ : Server α)).2.count
        Eff.eventSet = 1 := by
  have h : NotifierServer.stop forced (⟨SrvState.connected, buf⟩ : Server α) =
      (⟨SrvState.disconnected, if forced then buf ++ [Item.sentinel] else buf⟩,
       [Eff.appDisconnect, Eff.managerStop, Eff.eventSet]) := by
    simp [NotifierServer.stop]
  refine ⟨h, ?_, ?_, ?_⟩ <;> rw [h] <;> rfl

/-- C2: fetching the next item with the sentinel at the front of the
buffer invokes the process-exit collaborator and nothing else; on an
empty buffer while Disconnected the stream ends cleanly after only a
reset of the wait primitive; neither case waits on the primitive and
the empty-disconnected case never invokes process exit. -/
theorem nextStep_exit_spec {α : Type} (st : SrvState) (rest : List (Item α)) :
    NotifierServer.nextStep ⟨st, Item.sentinel :: rest⟩ =
      (NextOutcome.exitProc, [Eff.processExit]) ∧
    NotifierServer.nextStep (⟨SrvState.disconnected, []⟩ : Server α) =
      (NextOutcome.endOfStream, [Eff.eventClear]) ∧
    Eff.eventWait ∉ (NotifierServer.nextStep ⟨st, Item.sentinel :: rest⟩).2 ∧
    Eff.eventWait ∉
      (NotifierServer.nextStep (⟨SrvState.disconnected, []⟩ : Server α)).2 ∧
    Eff.processExit ∉
      (NotifierServer.nextStep (⟨SrvState.disconnected, []⟩ : Server α)).2 := by
  refine ⟨rfl, rfl, ?_, ?_, ?_⟩ <;> simp [NotifierServer.nextStep]

/-- C3: on a server that is not Disconnected (Connecting or
Connected), `shutdown` appends exactly one sentinel to the buffer,
calls the connection manager's graceful shutdown exactly once and
never its abrupt stop, clears the state to Disconnected and signals
the wait primitive exactly once, whatever the forcing context. -/
theorem shutdown_spec {α : Type} (buf : List (Item α)) (forced : Bool) :
    NotifierServer.shutdown forced ⟨SrvState.connecting, buf⟩ =
      (⟨SrvState.disconnected, buf ++ [Item.sentinel]⟩,
       [Eff.managerShutdown, Eff.eventSet]) ∧
    NotifierServer.shutdown forced ⟨SrvState.connected, buf⟩ =
      (⟨SrvState.disconnected, buf ++ [Item.sentinel]⟩,
       [Eff.managerShutdown, Eff.eventSet]) ∧
    Eff.managerStop ∉
      (NotifierServer.shutdown forced (⟨SrvState.connected, buf⟩ : Server α)).2 ∧
    (NotifierServer.shutdown forced (⟨SrvState.connected, buf⟩ : Server α)).2.count
        Eff.managerShutdown = 1 ∧
    (NotifierServer.shutdown forced (⟨SrvState.connected, buf⟩ : Server α)).2.count
        Eff.eventSet = 1 := by
  refine ⟨?_, ?_, ?_, ?_, ?_⟩ <;> simp [NotifierServer.shutdown]

/-- C4: `start` on a Connecting or Connected server raises the
invalid-state error, makes no connection-manager calls, and leaves the
server unchanged. -/
theorem start_invalid_spec {α : Type} (buf : List (Item α)) :
    NotifierServer.start ⟨SrvState.connecting, buf⟩ =
      (some StartErr.invalidState, ⟨SrvState.connecting, buf⟩, []) ∧
    NotifierServer.start ⟨SrvState.connected, buf⟩ =
      (some StartErr.invalidState, ⟨SrvState.connected, buf⟩, []) := by
  refine ⟨?_, ?_⟩ <;> simp [NotifierServer.start]

/-- C7: `notify m` on an empty buffer enqueues exactly `m` and the
following fetch returns `m` leaving the buffer empty again; every
`notify` signals the wait primitive exactly once. -/
theorem notify_roundtrip_spec {α : Type} (m : α) (st : SrvState)
    (buf : List (Item α)) :
    NotifierServer.notify m ⟨st, []⟩ = (⟨st, [Item.msg m]⟩, [Eff.eventSet]) ∧
    NotifierServer.nextStep (⟨st, [Item.msg m]⟩ : Server α) =
      (NextOutcome.item m ⟨st, []⟩, []) ∧
    (NotifierServer.notify m (⟨st, buf⟩ : Server α)).2.count Eff.eventSet = 1 := by
  exact ⟨rfl, rfl, rfl⟩

/-- C5: on a frame that fails to decode, `recv_frame` performs exactly
one local status notification — summary Failed To Parse Server
Message, category Error, body ending in the decode error text — then
disconnects, then stops the server non-forced; no forced stop occurs
on this path. -/
theorem recv_frame_decode_error_spec (e : List Char) :
    NotifierApplication.recv_frame (Except.error e) =
      [AppEff.localNotify parseFailSummary (parseFailBody e) Category.error,
       AppEff.disconnectCall, AppEff.serverStop false] ∧
    countLocalNotify (NotifierApplication.recv_frame (Except.error e)) = 1 ∧
    List.IsSuffix e (parseFailBody e) ∧
    AppEff.serverStop true ∉ NotifierApplication.recv_frame (Except.error e) := by
  refine ⟨rfl, rfl,
    ⟨"Unable to parse a message from the server: ".toList, rfl⟩, ?_⟩
  simp [NotifierApplication.recv_frame]

/-- C6: a goodbye-kind message makes `recv_frame` synthesize no status
message; it disconnects and invokes the closed handler with no
failure reason, and `closed none` synthesizes exactly one Connection
Closed status message with category Disconnected and stops the server
non-forced. -/
theorem recv_frame_goodbye_spec (r : List Char) :
    NotifierApplication.recv_frame (Except.ok ⟨"goodbye".toList, r⟩) =
      [AppEff.disconnectCall, AppEff.closedCall none] ∧
    countLocalNotify
      (NotifierApplication.recv_frame (Except.ok ⟨"goodbye".toList, r⟩)) = 0 ∧
    NotifierApplication.closed none =
      [AppEff.localNotify closedSummary closedBody Category.disconnected,
       AppEff.serverStop false] ∧
    countLocalNotify (NotifierApplication.closed none) = 1 ∧
    AppEff.serverStop true ∉ NotifierApplication.closed none := by
  refine ⟨rfl, rfl, rfl, rfl, ?_⟩
  simp [NotifierApplication.closed]

/-- C9: `disconnect` never raises: whatever the outcome of the goodbye
send — success or any exception — the result is the same non-error
trace in which the transport close is performed exactly once after the
send attempt. -/
theorem disconnect_total_spec {ε : Type} (r : Except ε Unit) :
    NotifierApplication.disconnect r =
      Except.ok [TransEff.sendGoodbye, TransEff.closeTransport] ∧
    (∃ effs, NotifierApplication.disconnect r = Except.ok effs ∧
      effs.count TransEff.closeTransport = 1) := by
  cases r with
  | ok u => exact ⟨rfl, ⟨[TransEff.sendGoodbye, TransEff.closeTransport], rfl, rfl⟩⟩
  | error e => exact ⟨rfl, ⟨[TransEff.sendGoodbye, TransEff.closeTransport], rfl, rfl⟩⟩

end HeyU
